import Mathlib

/-!
# Verification of the access-log dashboard's Analyze scan (src/app.py)

Shallow embedding of the "Analyze" button's scan pipeline:
object listing → extension filter → filename date filter → customer filter
→ fetch/decode → request-line extraction → frequency tally → descending sort.

Conventions of the embedding:
* Python strings are `String` / `List Char`.
* Python `dict` (insertion ordered) is an association list `List (String × Nat)`;
  `counts[seg] = counts.get(seg, 0) + 1` updates the first matching key in place
  and appends a fresh key at the end, exactly like an insertion-ordered dict.
* Exceptions are `Except`/`Option`: `except ClientError: continue` is a skip
  branch; an exception the code does not catch (IndexError from `parts[2]`,
  UnicodeDecodeError from `.decode()`, a listing failure in the paginator)
  surfaces as `Except.error`.
* The paged listing is modelled as an `Except Unit (List Obj)`: either the
  flattened sequence of listed objects, or a listing-level failure.
-/

namespace Dashboard

/-! ## Dates: `datetime.date` and `strptime(s, "%Y-%m-%d")` -/

/-- A `datetime.date`: year, month, day. Python compares dates
lexicographically on (year, month, day). -/
structure Date where
  y : Nat
  m : Nat
  d : Nat
deriving DecidableEq, Repr

/-- `datetime.date.__le__`: lexicographic on (y, m, d). -/
def Date.le (a b : Date) : Bool :=
  decide (a.y < b.y) ||
    (decide (a.y = b.y) &&
      (decide (a.m < b.m) || (decide (a.m = b.m) && decide (a.d ≤ b.d))))

/-- `calendar.isleap`, as used by `datetime.date` validation. -/
def leapYear (y : Nat) : Bool :=
  y % 4 == 0 && (y % 100 != 0 || y % 400 == 0)

/-- Days in a month, as `datetime.date` validates the day component. -/
def daysInMonth (y m : Nat) : Nat :=
  if m = 2 then (if leapYear y then 29 else 28)
  else if m = 4 ∨ m = 6 ∨ m = 9 ∨ m = 11 then 30
  else 31

/-- The validation `datetime.date(y, m, d)` performs (MINYEAR = 1). -/
def validDate (y m d : Nat) : Bool :=
  1 ≤ y && 1 ≤ m && m ≤ 12 && 1 ≤ d && d ≤ daysInMonth y m

def digitVal (c : Char) : Nat := c.toNat - '0'.toNat

/-- One digit `[1-9]`, the final alternative of strptime's `%m`/`%d` regexes. -/
def parseOneDigit : List Char → Option (Nat × List Char)
  | c :: rest =>
      if c.isDigit && decide (1 ≤ digitVal c) then some (digitVal c, rest) else none
  | [] => none

/-- strptime's `%m` (`1[0-2]|0[1-9]|[1-9]`) and `%d` (`3[01]|[12]\d|0[1-9]|[1-9]`):
a two-digit value in `1..maxv` is consumed greedily, else a single digit `1-9`. -/
def parseNum (maxv : Nat) (l : List Char) : Option (Nat × List Char) :=
  match l with
  | a :: b :: rest =>
      if a.isDigit && b.isDigit then
        let v := digitVal a * 10 + digitVal b
        if 1 ≤ v && v ≤ maxv then some (v, rest) else parseOneDigit l
      else parseOneDigit l
  | _ => parseOneDigit l

/-- `datetime.datetime.strptime(s, "%Y-%m-%d").date()`: exactly four digits for
`%Y`, literal `-`, month, literal `-`, day, end of string (strptime raises on
unconverted trailing data), then `datetime.date` calendar validation. `none`
models the `ValueError` the source catches. -/
def parseDate (s : String) : Option Date :=
  match s.toList with
  | y1 :: y2 :: y3 :: y4 :: '-' :: rest =>
      if y1.isDigit && y2.isDigit && y3.isDigit && y4.isDigit then
        let y := ((digitVal y1 * 10 + digitVal y2) * 10 + digitVal y3) * 10 + digitVal y4
        match parseNum 12 rest with
        | some (m, '-' :: rest2) =>
            match parseNum 31 rest2 with
            | some (d, []) => if validDate y m d then some ⟨y, m, d⟩ else none
            | _ => none
        | _ => none
      else none
  | _ => none

/-! ## Python string primitives used by the scan -/

/-- Python `str.split(sep)` for a one-character separator: always returns at
least one (possibly empty) segment. -/
def pySplit (sep : Char) : List Char → List (List Char)
  | [] => [[]]
  | c :: rest =>
      match pySplit sep rest with
      | [] => [[]]
      | a :: segs => if c = sep then [] :: a :: segs else (c :: a) :: segs

/-- `key.endswith(".txt")`. -/
def extFilter (l : List Char) : Bool :=
  match l.reverse with
  | 't' :: 'x' :: 't' :: '.' :: _ => true
  | _ => false

/-- `key.rsplit(".", 2)[1]`. Writing `segs` for the full split of the key on
`.`: with at least two dots, `rsplit(".", 2)` is `[…, segs[-2], segs[-1]]` so
index 1 is the second-to-last segment; with exactly one dot it is
`[segs[0], segs[1]]` so index 1 is the part after the dot; with no dot the
index raises `IndexError` (`none`, caught by the source's `except`). -/
def keyDateToken (l : List Char) : Option (List Char) :=
  match pySplit '.' l with
  | [_] => none
  | segs => if 3 ≤ segs.length then segs.get? (segs.length - 2)
            else segs.get? (segs.length - 1)

/-- Lines 86–91 of src/app.py: the guarded date extraction
`key.rsplit(".", 2)[1]` + `strptime`, with every failure caught and turned
into a skip (`none`). -/
def logDate (key : String) : Option Date :=
  match keyDateToken key.toList with
  | none => none
  | some tok => parseDate (String.mk tok)

/-- Line 92: `start_date <= log_date <= end_date` (chained, both inclusive). -/
def dateInRange (s e d : Date) : Bool :=
  Date.le s d && Date.le d e

/-! ## Request-line extraction: `re.search(r'"(?:GET|POST) (.*?) HTTP/1\.\d"', line)` -/

/-- The pattern's tail ` HTTP/1.<digit>"` at the current position. -/
def tailHere : List Char → Bool
  | ' ' :: 'H' :: 'T' :: 'T' :: 'P' :: '/' :: '1' :: '.' :: c :: '"' :: _ => c.isDigit
  | _ => false

/-- The lazy group `(.*?)`: the shortest run of non-newline characters after
which the tail matches; `none` when the tail never matches. -/
def captureLazy : List Char → List Char → Option (List Char)
  | [], _ => none
  | c :: rest, acc =>
      if tailHere (c :: rest) then some acc.reverse
      else if c = '\n' then none
      else captureLazy rest (c :: acc)

/-- The alternation `(?:GET|POST) ` right after the opening quote. -/
def matchVerb : List Char → Option (List Char)
  | 'G' :: 'E' :: 'T' :: ' ' :: r => some r
  | 'P' :: 'O' :: 'S' :: 'T' :: ' ' :: r => some r
  | _ => none

/-- `re.search`: try each start position left to right; a position matches when
it opens with `"`, a verb, and a lazily captured target followed by the tail. -/
def searchReq : List Char → Option (List Char)
  | [] => none
  | c :: rest =>
      if c = '"' then
        match matchVerb rest with
        | some afterVerb =>
            match captureLazy afterVerb [] with
            | some g => some g
            | none => searchReq rest
        | none => searchReq rest
      else searchReq rest

/-- `m.group(1)` for a line, or `none` when the pattern does not match. -/
def matchLine (line : List Char) : Option (List Char) := searchReq line

/-- `.split(sep)[-1]` (a split is never empty, so the default is inert). -/
def pyLastSeg (sep : Char) (l : List Char) : List Char :=
  (pySplit sep l).getLastD []

/-- `.split(sep)[0]`. -/
def pyFirstSeg (sep : Char) (l : List Char) : List Char :=
  (pySplit sep l).headD []

/-- Line 110: `seg = m.group(1).split("/")[-1].split("?")[0]`. -/
def reportToken (g : List Char) : List Char :=
  pyFirstSeg '?' (pyLastSeg '/' g)

/-! ## Object contents, the per-object step, and the whole scan -/

/-- What `s3.get_object(...)["Body"].read().decode()` does for one object:
succeeds with the decoded text, raises `botocore` `ClientError` (which the
source catches and skips), or raises a non-`ClientError` exception — for the
modelled step that is `UnicodeDecodeError` from `.decode()` — which the
`except ClientError` clause does NOT catch. -/
inductive FetchResult where
  | ok (content : String)
  | clientError
  | decodeError
deriving DecidableEq, Repr

/-- One listed object: its key and what fetching + decoding it would do. -/
structure Obj where
  key : String
  body : FetchResult
deriving DecidableEq, Repr

/-- An exception escaping the Analyze block: a failure of the paging listing
itself, the uncaught `IndexError` from `parts[2]` (line 97), or the uncaught
`UnicodeDecodeError` from `.decode()` (line 103). -/
inductive RunError where
  | listingFailed
  | indexError
  | decodeError
deriving DecidableEq, Repr

/-- The insertion-ordered dict update `counts[seg] = counts.get(seg, 0) + 1`:
an existing key is incremented in place, a new key is appended at the end. -/
def tallyOne (counts : List (String × Nat)) (k : String) : List (String × Nat) :=
  match counts with
  | [] => [(k, 1)]
  | (k', n) :: rest => if k' = k then (k', n + 1) :: rest else (k', n) :: tallyOne rest k

/-- Python `str.splitlines` boundary characters (`\r\n` is one boundary,
handled separately). -/
def isLineBreak (c : Char) : Bool :=
  c = '\n' || c = '\r' || c = '\x0b' || c = '\x0c' ||
    c = '\x1c' || c = '\x1d' || c = '\x1e' || c = '\x85' ||
    c = ' ' || c = ' '

def splitlinesAux : List Char → List Char → List (List Char)
  | [], [] => []
  | [], acc => [acc.reverse]
  | '\r' :: '\n' :: rest, acc => acc.reverse :: splitlinesAux rest []
  | c :: rest, acc =>
      if isLineBreak c then acc.reverse :: splitlinesAux rest []
      else splitlinesAux rest (c :: acc)

/-- `body.splitlines()`. -/
def pySplitlines (l : List Char) : List (List Char) := splitlinesAux l []

/-- The token one line contributes: `none` when the request-line pattern does
not match (line 108 `continue`), else the normalized segment of line 110. -/
def lineToken (line : List Char) : Option String :=
  match matchLine line with
  | none => none
  | some g => some (String.mk (reportToken g))

/-- The stream of tokens a decoded body produces, line by line. -/
def bodyTokens (content : String) : List String :=
  (pySplitlines content.toList).filterMap lineToken

/-- Lines 106–111: tally every matching line of a decoded body. -/
def tallyContent (counts : List (String × Nat)) (content : String) :
    List (String × Nat) :=
  (bodyTokens content).foldl tallyOne counts

/-- Line 97's `parts[2]` guard: `cust != "All" and parts[2] != cust`.
`none` models the uncaught `IndexError` when the key has fewer than three
`/`-separated parts and a specific customer is requested (the `and` is
short-circuiting, so `parts[2]` is not evaluated for `"All"`);
`some true` means the object survives the customer filter. -/
def customerKeep (cust : String) (key : String) : Option Bool :=
  if cust = "All" then some true
  else
    match (pySplit '/' key.toList).get? 2 with
    | none => none
    | some p2 => some (String.mk p2 = cust)

/-- The body of the inner loop (lines 80–111) for one listed object: either
the updated counts, or the uncaught exception that aborts the whole scan. -/
def processObj (cust : String) (s e : Date) (counts : List (String × Nat))
    (o : Obj) : Except RunError (List (String × Nat)) :=
  if extFilter o.key.toList = false then .ok counts
  else
    match logDate o.key with
    | none => .ok counts
    | some d =>
        if dateInRange s e d = false then .ok counts
        else
          match customerKeep cust o.key with
          | none => .error .indexError
          | some false => .ok counts
          | some true =>
              match o.body with
              | .ok content => .ok (tallyContent counts content)
              | .clientError => .ok counts
              | .decodeError => .error .decodeError

/-- The scan over the flattened listing, threading the counts dict. -/
def scanObjs (cust : String) (s e : Date) :
    List Obj → List (String × Nat) → Except RunError (List (String × Nat))
  | [], counts => .ok counts
  | o :: rest, counts =>
      match processObj cust s e counts o with
      | .error r => .error r
      | .ok counts' => scanObjs cust s e rest counts'

/-! ## Ranking: `DataFrame.sort_values("Calls", ascending=False)` -/

/-- Stable descending insertion by count: a row is placed before the first
row of smaller-or-equal count that it precedes in the input, so rows with
tied counts keep their input (insertion) order. -/
def insertDesc (p : String × Nat) : List (String × Nat) → List (String × Nat)
  | [] => [p]
  | q :: rest => if q.2 ≤ p.2 then p :: q :: rest else q :: insertDesc p rest

/-- Stable descending sort by count. -/
def sortDesc : List (String × Nat) → List (String × Nat)
  | [] => []
  | p :: rest => insertDesc p (sortDesc rest)

/-- pandas `sort_values("Calls", ascending=False)` on the insertion-ordered
table: for `ascending=False` pandas' `nargsort` reverses the values, takes a
stable argsort (the default kind is an insertion sort on frames this small),
maps the indices back and reverses the result — net effect a descending order
in which rows with tied counts keep their insertion order, i.e. a stable
descending sort by count. -/
def sortRank (counts : List (String × Nat)) : List (String × Nat) :=
  sortDesc counts

/-- What the Analyze branch renders: the explicit "No entries found" condition
(line 114) or the ranked table (lines 116–121). -/
inductive Outcome where
  | empty
  | results (r : List (String × Nat))
deriving DecidableEq, Repr

/-- The whole Analyze invocation (lines 76–121) over a listing that either
yields the flattened object sequence or fails: a listing failure propagates
(nothing catches it), a scan-level exception propagates, an empty dict gives
the empty-result warning, and a non-empty dict gives the descending table. -/
def analyze (cust : String) (s e : Date) (listing : Except Unit (List Obj)) :
    Except RunError Outcome :=
  match listing with
  | .error _ => .error .listingFailed
  | .ok objs =>
      match scanObjs cust s e objs [] with
      | .error r => .error r
      | .ok counts =>
          if counts.isEmpty then .ok .empty
          else .ok (.results (sortRank counts))

/-! ## Derived definitions used by the statements -/

/-- First-match lookup with default 0: the count the FrequencyTable maps a
token to (`counts.get(k, 0)`). -/
def countOf : List (String × Nat) → String → Nat
  | [], _ => 0
  | (k', n) :: rest, k => if k' = k then n else countOf rest k

/-- The tokens one listed object contributes to the tally: empty unless it
passes the extension, date and customer filters and its body fetches and
decodes; mirrors the skip structure of `processObj`. -/
def objTokens (cust : String) (s e : Date) (o : Obj) : List String :=
  if extFilter o.key.toList = false then []
  else
    match logDate o.key with
    | none => []
    | some d =>
        if dateInRange s e d = false then []
        else
          match customerKeep cust o.key with
          | some true =>
              match o.body with
              | .ok content => bodyTokens content
              | _ => []
          | _ => []

/-- Modelled from the spec's words ("DateToken … extracted by splitting the
filename on `.` and taking the second-to-last segment", the filename being the
part of the key after its last `/`), for comparison with `keyDateToken`. -/
def specFilenameDateToken (key : String) : Option String :=
  let fn := (key.toList.reverse.takeWhile (fun c => c != '/')).reverse
  let segs := pySplit '.' fn
  if 2 ≤ segs.length then (segs.get? (segs.length - 2)).map String.mk else none

/-! ## Concrete scenario data -/

/-- start = 2025-04-25. -/
def rangeStart : Date := ⟨2025, 4, 25⟩

/-- end = 2025-04-27. -/
def rangeEnd : Date := ⟨2025, 4, 27⟩

/-- Three request lines whose tokens are `summary`, `summary`, `daily`. -/
def sampleBody : String :=
  "10.0.0.1 - - \"GET /reports/summary HTTP/1.1\" 200 123\n10.0.0.2 - - \"POST /reports/summary HTTP/1.0\" 201 50\n10.0.0.3 - - \"GET /api/reports/daily?x=1 HTTP/1.1\" 200 77\n"

/-- A body whose lines are irrelevant (its object is out of range). -/
def noiseBody : String := "10.0.0.4 - - \"GET /reports/weekly HTTP/1.1\" 200 9\n"

/-- A qualifying object contributing the single token `x`. -/
def tieObjX : Obj :=
  ⟨"access_logs/logs/acme/h.2025-04-26.txt", .ok "\"GET /r/x HTTP/1.1\"\n"⟩

/-- A qualifying object contributing the single token `y`. -/
def tieObjY : Obj :=
  ⟨"access_logs/logs/acme/h2.2025-04-26.txt", .ok "\"GET /r/y HTTP/1.1\"\n"⟩

/-! ## Helper lemmas about the Python string primitives -/

theorem pySplit_ne_nil (sep : Char) (l : List Char) : pySplit sep l ≠ [] := by
  cases l with
  | nil => simp [pySplit]
  | cons c rest =>
      cases h : pySplit sep rest with
      | nil => simp [pySplit, h]
      | cons a segs => simp only [pySplit, h]; split <;> simp

theorem headD_pySplit (sep : Char) (l : List Char) :
    (pySplit sep l).headD [] = l.takeWhile (fun c => c != sep) := by
  induction l with
  | nil => rfl
  | cons c rest ih =>
      cases h : pySplit sep rest with
      | nil => exact absurd h (pySplit_ne_nil sep rest)
      | cons a segs =>
          have ha : a = rest.takeWhile (fun c => c != sep) := by
            rw [← ih, h, List.headD_cons]
          by_cases hc : c = sep
          · simp [pySplit, h, hc, List.takeWhile_cons]
          · simp [pySplit, h, hc, List.takeWhile_cons, ha]

theorem takeWhile_append_stops (p : Char → Bool) (a b : List Char)
    (h : ∃ x ∈ a, p x = false) : (a ++ b).takeWhile p = a.takeWhile p := by
  induction a with
  | nil => obtain ⟨x, hx, _⟩ := h; exact absurd hx (List.not_mem_nil x)
  | cons c rest ih =>
      obtain ⟨x, hx, hpx⟩ := h
      by_cases hc : p c
      · have hxr : x ∈ rest := by
          rcases List.mem_cons.1 hx with h1 | h1
          · subst h1; rw [hc] at hpx; exact absurd hpx (by simp)
          · exact h1
        simp [List.takeWhile_cons, hc, ih ⟨x, hxr, hpx⟩]
      · simp [List.takeWhile_cons, hc]

theorem takeWhile_append_all (p : Char → Bool) (a b : List Char)
    (h : ∀ x ∈ a, p x = true) : (a ++ b).takeWhile p = a ++ b.takeWhile p := by
  induction a with
  | nil => rfl
  | cons c rest ih =>
      have hc := h c (List.mem_cons_self c rest)
      simp [List.takeWhile_cons, hc, ih fun x hx => h x (List.mem_cons_of_mem c hx)]

theorem pySplit_of_not_mem (sep : Char) (l : List Char) (h : sep ∉ l) :
    pySplit sep l = [l] := by
  induction l with
  | nil => rfl
  | cons c rest ih =>
      have hc : c ≠ sep := fun hc => h (hc ▸ List.mem_cons_self c rest)
      have hr : sep ∉ rest := fun hr => h (List.mem_cons_of_mem c hr)
      simp [pySplit, ih hr, hc]

theorem pySplit_len_of_mem (sep : Char) (l : List Char) (h : sep ∈ l) :
    2 ≤ (pySplit sep l).length := by
  induction l with
  | nil => exact absurd h (List.not_mem_nil sep)
  | cons c rest ih =>
      cases hs : pySplit sep rest with
      | nil => exact absurd hs (pySplit_ne_nil sep rest)
      | cons a segs =>
          by_cases hc : c = sep
          · simp [pySplit, hs, hc]
          · have hr : sep ∈ rest := by
              rcases List.mem_cons.1 h with h1 | h1
              · exact absurd h1.symm hc
              · exact h1
            have := ih hr
            rw [hs] at this
            simp only [pySplit, hs, if_neg hc]
            simpa using this

theorem getLastD_pySplit (sep : Char) (l : List Char) :
    (pySplit sep l).getLastD [] =
      (l.reverse.takeWhile (fun c => c != sep)).reverse := by
  induction l with
  | nil => rfl
  | cons c rest ih =>
      rw [List.reverse_cons]
      by_cases hmem : sep ∈ rest
      · have hstop : (rest.reverse ++ [c]).takeWhile (fun x => x != sep)
            = rest.reverse.takeWhile (fun x => x != sep) :=
          takeWhile_append_stops _ _ _ ⟨sep, List.mem_reverse.2 hmem, by simp⟩
        rw [hstop, ← ih]
        cases hs : pySplit sep rest with
        | nil => exact absurd hs (pySplit_ne_nil sep rest)
        | cons a segs =>
            cases segs with
            | nil =>
                have h2 := pySplit_len_of_mem sep rest hmem
                rw [hs] at h2; simp at h2
            | cons b bs =>
                by_cases hc : c = sep
                · simp only [pySplit, hs, if_pos hc]
                  simp only [List.getLastD_cons]
                · simp only [pySplit, hs, if_neg hc]
                  simp only [List.getLastD_cons]
      · have hall : ∀ x ∈ rest.reverse, (fun x => x != sep) x = true := by
          intro x hx
          have hxr : x ∈ rest := List.mem_reverse.1 hx
          simp only [bne_iff_ne, ne_eq, decide_eq_true_eq]
          exact fun hx2 => hmem (hx2 ▸ hxr)
        have hone : pySplit sep rest = [rest] := pySplit_of_not_mem sep rest hmem
        rw [takeWhile_append_all _ _ _ hall]
        by_cases hc : c = sep
        · simp [pySplit, hone, hc, List.takeWhile_cons, List.getLastD_cons]
        · simp [pySplit, hone, hc, List.takeWhile_cons, List.getLastD_cons]

/-! ## Helper lemmas about the per-object step -/

theorem processObj_skip_of_no_date (cust : String) (s e : Date)
    (counts : List (String × Nat)) (o : Obj) (h : logDate o.key = none) :
    processObj cust s e counts o = .ok counts := by
  unfold processObj
  by_cases hext : extFilter o.key.toList = false
  · rw [if_pos hext]
  · rw [if_neg hext, h]

theorem processObj_skip_of_out_of_range (cust : String) (s e : Date)
    (counts : List (String × Nat)) (o : Obj) (d : Date)
    (hd : logDate o.key = some d) (hr : dateInRange s e d = false) :
    processObj cust s e counts o = .ok counts := by
  unfold processObj
  by_cases hext : extFilter o.key.toList = false
  · rw [if_pos hext]
  · rw [if_neg hext, hd]
    simp [hr]

theorem processObj_all_ok (s e : Date) (counts : List (String × Nat)) (o : Obj)
    (d : Date) (content : String) (hext : extFilter o.key.toList = true)
    (hd : logDate o.key = some d) (hr : dateInRange s e d = true)
    (hb : o.body = .ok content) :
    processObj "All" s e counts o = .ok (tallyContent counts content) := by
  unfold processObj
  rw [if_neg (by rw [hext]; exact fun hf => Bool.noConfusion hf), hd]
  simp [hr, customerKeep, hb]

theorem processObj_client_error (cust : String) (s e : Date)
    (counts : List (String × Nat)) (o : Obj) (hb : o.body = .clientError)
    (hck : customerKeep cust o.key = some true) :
    processObj cust s e counts o = .ok counts := by
  unfold processObj
  by_cases hext : extFilter o.key.toList = false
  · rw [if_pos hext]
  · rw [if_neg hext]
    cases hd : logDate o.key with
    | none => rfl
    | some d =>
        by_cases hr : dateInRange s e d = false
        · simp [hr]
        · simp [hr, hck, hb]

/-! ## Helper lemmas about the tally, the scan and the sort -/

theorem countOf_tallyOne (c : List (String × Nat)) (t k : String) :
    countOf (tallyOne c t) k = countOf c k + (if t = k then 1 else 0) := by
  induction c with
  | nil => by_cases ht : t = k <;> simp [tallyOne, countOf, ht]
  | cons p rest ih =>
      obtain ⟨q, n⟩ := p
      by_cases hq : q = t
      · subst hq
        by_cases hk : q = k
        · simp [tallyOne, countOf, hk]
        · simp [tallyOne, countOf, hk]
      · by_cases hk : q = k
        · subst hk
          have ht : ¬ t = q := fun h => hq h.symm
          simp [tallyOne, countOf, hq, ht]
        · simp [tallyOne, countOf, hq, hk, ih]

theorem countOf_foldl (ts : List String) :
    ∀ c k, countOf (ts.foldl tallyOne c) k = countOf c k + ts.count k := by
  induction ts with
  | nil => intro c k; simp
  | cons t ts ih =>
      intro c k
      rw [List.foldl_cons, ih, countOf_tallyOne, List.count_cons]
      by_cases h : t = k
      · subst h; simp; omega
      · simp [h, Ne.symm h]

theorem keys_tallyOne (c : List (String × Nat)) (k : String) :
    (tallyOne c k).map Prod.fst =
      if k ∈ c.map Prod.fst then c.map Prod.fst else c.map Prod.fst ++ [k] := by
  induction c with
  | nil => simp [tallyOne]
  | cons p rest ih =>
      obtain ⟨q, n⟩ := p
      by_cases hq : q = k
      · simp [tallyOne, hq]
      · have hlist : (tallyOne ((q, n) :: rest) k).map Prod.fst
            = q :: (tallyOne rest k).map Prod.fst := by simp [tallyOne, hq]
        rw [hlist, ih]
        by_cases hm : k ∈ rest.map Prod.fst
        · simp [hm, List.mem_cons, Ne.symm hq]
        · simp [hm, List.mem_cons, Ne.symm hq]

theorem nodup_keys_tallyOne (c : List (String × Nat)) (k : String)
    (h : (c.map Prod.fst).Nodup) : ((tallyOne c k).map Prod.fst).Nodup := by
  rw [keys_tallyOne]
  by_cases hm : k ∈ c.map Prod.fst
  · simp [hm, h]
  · rw [if_neg hm]
    exact ((List.perm_append_singleton k (c.map Prod.fst)).nodup_iff).2
      (by simp [List.nodup_cons, h, hm])

theorem nodup_keys_foldl (ts : List String) :
    ∀ c : List (String × Nat), (c.map Prod.fst).Nodup →
      ((ts.foldl tallyOne c).map Prod.fst).Nodup := by
  induction ts with
  | nil => intro c h; simpa using h
  | cons t ts ih =>
      intro c h
      rw [List.foldl_cons]
      exact ih _ (nodup_keys_tallyOne c t h)

theorem pos_tallyOne (c : List (String × Nat)) (k : String)
    (h : ∀ p ∈ c, 1 ≤ p.2) : ∀ p ∈ tallyOne c k, 1 ≤ p.2 := by
  induction c with
  | nil =>
      intro p hp
      simp [tallyOne] at hp
      simp [hp]
  | cons q rest ih =>
      obtain ⟨q1, n⟩ := q
      intro p hp
      by_cases hq : q1 = k
      · simp only [tallyOne, if_pos hq, List.mem_cons] at hp
        rcases hp with hp | hp
        · rw [hp]; simp
        · exact h p (List.mem_cons_of_mem _ hp)
      · simp only [tallyOne, if_neg hq, List.mem_cons] at hp
        rcases hp with hp | hp
        · exact hp ▸ h (q1, n) (List.mem_cons_self _ _)
        · exact ih (fun r hr => h r (List.mem_cons_of_mem _ hr)) p hp

theorem pos_foldl (ts : List String) :
    ∀ c : List (String × Nat), (∀ p ∈ c, 1 ≤ p.2) →
      ∀ p ∈ ts.foldl tallyOne c, 1 ≤ p.2 := by
  induction ts with
  | nil => intro c h; simpa using h
  | cons t ts ih =>
      intro c h
      rw [List.foldl_cons]
      exact ih _ (pos_tallyOne c t h)

theorem mem_iff_countOf (c : List (String × Nat)) (k : String) (n : Nat)
    (hnd : (c.map Prod.fst).Nodup) (hpos : ∀ p ∈ c, 1 ≤ p.2) :
    (k, n) ∈ c ↔ (countOf c k = n ∧ 1 ≤ n) := by
  induction c with
  | nil =>
      simp only [List.not_mem_nil, countOf, false_iff]
      omega
  | cons p rest ih =>
      obtain ⟨q, m⟩ := p
      have hndr : (rest.map Prod.fst).Nodup := (List.nodup_cons.1 (by simpa using hnd)).2
      have hq : q ∉ rest.map Prod.fst := (List.nodup_cons.1 (by simpa using hnd)).1
      have hposr : ∀ p ∈ rest, 1 ≤ p.2 :=
        fun r hr => hpos r (List.mem_cons_of_mem _ hr)
      have hm : 1 ≤ m := hpos (q, m) (List.mem_cons_self _ _)
      by_cases hk : q = k
      · subst hk
        have hcount : countOf ((q, m) :: rest) q = m := by simp [countOf]
        rw [hcount]
        constructor
        · intro hp
          rcases List.mem_cons.1 hp with hp | hp
          · have hmn : m = n := by
              have := congrArg Prod.snd hp
              simpa using this.symm
            exact ⟨hmn, hmn ▸ hm⟩
          · have : q ∈ rest.map Prod.fst := by
              have := List.mem_map_of_mem Prod.fst hp
              simpa using this
            exact absurd this hq
        · rintro ⟨hmn, _⟩
          exact List.mem_cons.2 (Or.inl (by rw [hmn]))
      · have hcount : countOf ((q, m) :: rest) k = countOf rest k := by
          simp [countOf, hk]
        rw [hcount, ← ih hndr hposr]
        constructor
        · intro hp
          rcases List.mem_cons.1 hp with hp | hp
          · have : k = q := by
              have := congrArg Prod.fst hp
              simpa using this
            exact absurd this.symm hk
          · exact hp
        · exact fun hp => List.mem_cons.2 (Or.inr hp)

theorem insertDesc_perm (p : String × Nat) (l : List (String × Nat)) :
    (insertDesc p l).Perm (p :: l) := by
  induction l with
  | nil => exact List.Perm.refl _
  | cons q rest ih =>
      unfold insertDesc
      by_cases h : q.2 ≤ p.2
      · rw [if_pos h]
      · rw [if_neg h]
        exact (ih.cons q).trans (List.Perm.swap p q rest)

theorem sortDesc_perm (l : List (String × Nat)) : (sortDesc l).Perm l := by
  induction l with
  | nil => exact List.Perm.refl _
  | cons p rest ih =>
      exact (insertDesc_perm p (sortDesc rest)).trans (ih.cons p)

theorem sortRank_perm (l : List (String × Nat)) : (sortRank l).Perm l :=
  sortDesc_perm l

theorem processObj_ok_or_error (cust : String) (s e : Date)
    (counts : List (String × Nat)) (o : Obj) :
    processObj cust s e counts o
        = .ok ((objTokens cust s e o).foldl tallyOne counts) ∨
    (∃ r : RunError, processObj cust s e counts o = .error r) := by
  unfold processObj objTokens
  by_cases hext : extFilter o.key.toList = false
  · left; simp only [if_pos hext]; rfl
  · simp only [if_neg hext]
    cases hd : logDate o.key with
    | none => left; rfl
    | some d =>
        by_cases hr : dateInRange s e d = false
        · left; simp only [if_pos hr]; rfl
        · simp only [if_neg hr]
          cases hck : customerKeep cust o.key with
          | none => right; exact ⟨.indexError, rfl⟩
          | some b =>
              cases b with
              | false => left; rfl
              | true =>
                  cases hb : o.body with
                  | ok content => left; rfl
                  | clientError => left; rfl
                  | decodeError => right; exact ⟨.decodeError, rfl⟩

theorem scanObjs_ok_eq (cust : String) (s e : Date) (objs : List Obj) :
    ∀ counts final, scanObjs cust s e objs counts = .ok final →
      final = (objs.flatMap (objTokens cust s e)).foldl tallyOne counts := by
  induction objs with
  | nil =>
      intro counts final h
      injection h with h2
      simp [h2.symm]
  | cons o rest ih =>
      intro counts final h
      have hstep : scanObjs cust s e (o :: rest) counts
          = match processObj cust s e counts o with
            | .error r => .error r
            | .ok counts' => scanObjs cust s e rest counts' := rfl
      rw [hstep] at h
      rcases processObj_ok_or_error cust s e counts o with hok | ⟨r, herr⟩
      · rw [hok] at h
        rw [ih _ final h]
        simp [List.foldl_append]
      · rw [herr] at h
        exact absurd h (by simp)

/-! ## Theorems for the claims -/

/-- Claim C1 (counterexample): for the claim's literal scenario — customer
"acme", 2025-04-25 … 2025-04-27, objects `access_logs/acme/host.2025-04-20.txt`
and `access_logs/acme/host.2025-04-26.txt` (three request lines tokenizing to
summary, summary, daily) — the code does NOT produce
`[("summary", 2), ("daily", 1)]`: `parts[2]` of a two-segment-suffix key is the
filename, so the customer filter excludes the in-range object and the outcome
is the empty-result warning. -/
theorem claim_c1_counterexample :
    analyze "acme" rangeStart rangeEnd
        (.ok [⟨"access_logs/acme/host.2025-04-20.txt", .ok noiseBody⟩,
              ⟨"access_logs/acme/host.2025-04-26.txt", .ok sampleBody⟩])
      = .ok .empty ∧
    (Outcome.empty = Outcome.results [("summary", 2), ("daily", 1)] → False) :=
  ⟨rfl, fun h => Outcome.noConfusion h⟩

/-- Claim C1 (amended): with the customer identifier in the key's third
`/`-segment (`parts[2]`), the scan over the out-of-range object and the
in-range object produces exactly `[("summary", 2), ("daily", 1)]`, and the
out-of-range object contributes nothing: dropping it leaves the result
unchanged. -/
theorem claim_c1 :
    analyze "acme" rangeStart rangeEnd
        (.ok [⟨"access_logs/logs/acme/host.2025-04-20.txt", .ok noiseBody⟩,
              ⟨"access_logs/logs/acme/host.2025-04-26.txt", .ok sampleBody⟩])
      = .ok (.results [("summary", 2), ("daily", 1)]) ∧
    analyze "acme" rangeStart rangeEnd
        (.ok [⟨"access_logs/logs/acme/host.2025-04-26.txt", .ok sampleBody⟩])
      = .ok (.results [("summary", 2), ("daily", 1)]) :=
  ⟨rfl, rfl⟩

/-- Claim C2 (code evaluated at the failing input): with customer "acme"
requested, an in-range `.txt` object whose key has only two `/`-separated
segments makes the scan raise the uncaught `IndexError` of `parts[2]`,
aborting the whole Analyze invocation instead of excluding the object. -/
theorem claim_c2_eval :
    analyze "acme" rangeStart rangeEnd
        (.ok [⟨"access_logs/host.2025-04-26.txt", .ok sampleBody⟩])
      = .error .indexError ∧
    analyze "All" rangeStart rangeEnd
        (.ok [⟨"access_logs/host.2025-04-26.txt", .ok sampleBody⟩])
      = .ok (.results [("summary", 2), ("daily", 1)]) :=
  ⟨rfl, rfl⟩

/-- Claim C3 (counterexample): for `access_logs/acme/2025-04-26.txt` the token
the filter uses is `key.rsplit(".", 2)[1] = "txt"`, not the filename's
second-to-last `.`-delimited segment `"2025-04-26"`; the latter is a valid
calendar date, yet the code's date extraction fails and the object is skipped
for every date range. -/
theorem claim_c3_counterexample :
    (keyDateToken "access_logs/acme/2025-04-26.txt".toList).map String.mk
        = some "txt" ∧
    specFilenameDateToken "access_logs/acme/2025-04-26.txt" = some "2025-04-26" ∧
    logDate "access_logs/acme/2025-04-26.txt" = none ∧
    parseDate "2025-04-26" = some ⟨2025, 4, 26⟩ ∧
    (some "txt" = some "2025-04-26" → False) :=
  ⟨rfl, rfl, rfl, rfl, fun h => by simp at h⟩

/-- Claim C3 (amended): the DateToken is taken from the whole key, not the
filename: for every object key that splits on `.` into at least three
segments, the token the filter uses (`keyDateToken`, the code's
`key.rsplit(".", 2)[1]`) is the key's second-to-last `.`-delimited segment;
and whenever the guarded extraction fails (`logDate` is `none`: token missing,
or not a valid `YYYY-MM-DD` calendar date) the object is silently skipped —
the per-object step returns the counts unchanged and the scan continues —
never an error. -/
theorem claim_c3 (cust : String) (s e : Date) (counts : List (String × Nat))
    (o : Obj) (rest : List Obj) :
    (∀ segs, segs = pySplit '.' o.key.toList → 3 ≤ segs.length →
        keyDateToken o.key.toList = segs.get? (segs.length - 2)) ∧
    (logDate o.key = none →
        processObj cust s e counts o = .ok counts ∧
        scanObjs cust s e (o :: rest) counts = scanObjs cust s e rest counts) := by
  constructor
  · intro segs hseg hlen
    subst hseg
    unfold keyDateToken
    cases hsp : pySplit '.' o.key.toList with
    | nil => exact absurd hsp (pySplit_ne_nil _ _)
    | cons a tails =>
        cases tails with
        | nil => rw [hsp] at hlen; simp at hlen
        | cons b bs =>
            have hlen2 : 3 ≤ (a :: b :: bs).length := hsp ▸ hlen
            cases bs with
            | nil => simp at hlen2
            | cons c cs => simp
  · intro h
    have hp := processObj_skip_of_no_date cust s e counts o h
    refine ⟨hp, ?_⟩
    have hstep : scanObjs cust s e (o :: rest) counts
        = match processObj cust s e counts o with
          | .error r => .error r
          | .ok counts' => scanObjs cust s e rest counts' := rfl
    rw [hstep, hp]

/-- Claim C3 (witness): the key `access_logs/acme/2025-04-26.txt` has an
unparseable code-token (`"txt"`), so its object is skipped without error. -/
theorem claim_c3_witness :
    processObj "All" rangeStart rangeEnd []
        ⟨"access_logs/acme/2025-04-26.txt", .ok sampleBody⟩ = .ok [] :=
  ((claim_c3 "All" rangeStart rangeEnd []
      ⟨"access_logs/acme/2025-04-26.txt", .ok sampleBody⟩ []).2 rfl).1

/-- Claim C4: for an object whose date token parses to `d`, the date filter is
decided exactly by the chained inclusive comparison: out of range means the
object is skipped with the counts unchanged, in range (shown for the
unfiltered customer) means its lines are tallied; the range check is literally
`start ≤ d && d ≤ end`, and `≤` is reflexive, so an object dated exactly
`start` or exactly `end` is included. -/
theorem claim_c4 (cust : String) (s e d : Date) (counts : List (String × Nat))
    (o : Obj) (content : String) (hb : o.body = .ok content)
    (hext : extFilter o.key.toList = true) (hd : logDate o.key = some d) :
    (dateInRange s e d = false → processObj cust s e counts o = .ok counts) ∧
    (cust = "All" → dateInRange s e d = true →
        processObj cust s e counts o = .ok (tallyContent counts content)) ∧
    dateInRange s e d = (Date.le s d && Date.le d e) ∧
    Date.le d d = true := by
  refine ⟨?_, ?_, rfl, ?_⟩
  · exact fun hr => processObj_skip_of_out_of_range cust s e counts o d hd hr
  · intro hc hr
    subst hc
    exact processObj_all_ok s e counts o d content hext hd hr hb
  · simp [Date.le]

/-- Claim C4 (witness): an object dated exactly `start` (2025-04-25 in the
range 2025-04-25 … 2025-04-27) is included and tallied. -/
theorem claim_c4_witness :
    processObj "All" rangeStart rangeEnd []
        ⟨"access_logs/logs/acme/host.2025-04-25.txt", .ok sampleBody⟩
      = .ok (tallyContent [] sampleBody) :=
  ((claim_c4 "All" rangeStart rangeEnd ⟨2025, 4, 25⟩ []
      ⟨"access_logs/logs/acme/host.2025-04-25.txt", .ok sampleBody⟩
      sampleBody rfl rfl rfl).2.1) rfl (by decide)

/-- Claim C5 (amended): for any requested customer, a `ClientError` while
fetching the bytes of an object that survives the filters (`customerKeep`
kept it) is caught and causes only that object to be skipped — the counts are
unchanged and the scan continues with the remaining objects. A UTF-8 decode
failure, by contrast, is not a `ClientError` and aborts the invocation (see
the counterexample). -/
theorem claim_c5 (cust : String) (s e : Date) (counts : List (String × Nat))
    (o : Obj) (rest : List Obj) (hb : o.body = .clientError)
    (hck : customerKeep cust o.key = some true) :
    processObj cust s e counts o = .ok counts ∧
    scanObjs cust s e (o :: rest) counts = scanObjs cust s e rest counts := by
  have hp := processObj_client_error cust s e counts o hb hck
  refine ⟨hp, ?_⟩
  have hstep : scanObjs cust s e (o :: rest) counts
      = match processObj cust s e counts o with
        | .error r => .error r
        | .ok counts' => scanObjs cust s e rest counts' := rfl
  rw [hstep, hp]

/-- Claim C5 (witness): with customer "acme" requested, a fetch `ClientError`
on one of acme's objects leaves the scan exactly where it would be without
that object. -/
theorem claim_c5_witness :
    scanObjs "acme" rangeStart rangeEnd
        [⟨"access_logs/logs/acme/host.2025-04-26.txt", .clientError⟩] []
      = scanObjs "acme" rangeStart rangeEnd [] [] :=
  (claim_c5 "acme" rangeStart rangeEnd []
      ⟨"access_logs/logs/acme/host.2025-04-26.txt", .clientError⟩ [] rfl rfl).2

/-- Claim C5 (counterexample): a UTF-8 decode failure on one surviving object
is not a `ClientError`, escapes the `except ClientError` clause and aborts the
whole Analyze invocation for the requested customer — the remaining object
(which alone would produce `[("summary", 2), ("daily", 1)]`) is never
reached. -/
theorem claim_c5_counterexample :
    analyze "acme" rangeStart rangeEnd
        (.ok [⟨"access_logs/logs/acme/host.2025-04-26.txt", .decodeError⟩,
              ⟨"access_logs/logs/acme/host.2025-04-27.txt", .ok sampleBody⟩])
      = .error .decodeError ∧
    analyze "acme" rangeStart rangeEnd
        (.ok [⟨"access_logs/logs/acme/host.2025-04-27.txt", .ok sampleBody⟩])
      = .ok (.results [("summary", 2), ("daily", 1)]) :=
  ⟨rfl, rfl⟩

/-- Claim C6: the two concrete request lines produce tokens `daily` and
`summary`; a line the pattern does not match contributes nothing; and in
general the token is the portion of the captured target after its last `/`
with everything from the first `?` onward discarded (the code's
`split("/")[-1].split("?")[0]` equals that description read left to right). -/
theorem claim_c6 :
    lineToken "10.0.0.1 - - \"GET /api/reports/daily?x=1 HTTP/1.1\" 200 123".toList
        = some "daily" ∧
    lineToken "10.0.0.2 - - \"POST /reports/summary HTTP/1.0\" 201 50".toList
        = some "summary" ∧
    (∀ line : List Char, matchLine line = none → lineToken line = none) ∧
    (∀ g : List Char, reportToken g
        = ((g.reverse.takeWhile (fun c => c != '/')).reverse).takeWhile
            (fun c => c != '?')) := by
  refine ⟨rfl, rfl, ?_, ?_⟩
  · intro line h
    simp [lineToken, h]
  · intro g
    unfold reportToken pyFirstSeg pyLastSeg
    rw [headD_pySplit, getLastD_pySplit]

/-- Claim C10: a captured target ending in `/` (including the bare target `/`)
yields the empty-string token, and that token is tallied under the
empty-string key exactly like any other token (the dict update is the same
`tallyOne`), not discarded. -/
theorem claim_c10 :
    (∀ g : List Char, g.getLast? = some '/' → reportToken g = []) ∧
    tallyContent [] "10.0.0.9 - - \"GET / HTTP/1.1\" 200 1" = [("", 1)] ∧
    (∀ counts : List (String × Nat),
        tallyContent counts "10.0.0.9 - - \"GET / HTTP/1.1\" 200 1"
          = tallyOne counts "") := by
  refine ⟨?_, rfl, ?_⟩
  · intro g hg
    unfold reportToken pyLastSeg
    rw [getLastD_pySplit]
    have hrev : g.reverse.head? = some '/' := by
      rw [List.head?_reverse]; exact hg
    cases hR : g.reverse with
    | nil => rw [hR] at hrev; simp at hrev
    | cons x xs =>
        rw [hR] at hrev
        have hx : x = '/' := by simpa using hrev
        subst hx
        simp [List.takeWhile_cons]
        rfl
  · intro counts
    rfl

/-- Claim C7: an Analyze invocation whose scan completes with an empty
frequency dict renders the explicit empty-result condition (`Outcome.empty`,
the "No entries found" warning), which as an `Except.ok` value is distinct
from every failure condition; and a rendered table never contains a
zero-count entry — every entry of a ranked result is at least 1. -/
theorem claim_c7 (cust : String) (s e : Date) (objs : List Obj) :
    (scanObjs cust s e objs [] = .ok [] →
        analyze cust s e (.ok objs) = .ok .empty) ∧
    (∀ r p, analyze cust s e (.ok objs) = .ok (.results r) → p ∈ r →
        1 ≤ p.2) := by
  have hred : analyze cust s e (.ok objs)
      = match scanObjs cust s e objs [] with
        | .error r => .error r
        | .ok counts =>
            if counts.isEmpty then .ok .empty
            else .ok (.results (sortRank counts)) := rfl
  constructor
  · intro h
    rw [hred, h]
    rfl
  · intro r p han hp
    rw [hred] at han
    split at han
    · exact absurd han (by simp)
    · rename_i counts hscan
      split at han
      · exact absurd han (by simp)
      · have hr : sortRank counts = r := by
          injection han with h2
          injection h2 with h3
        have hmem : p ∈ counts := ((sortRank_perm counts).mem_iff).1 (hr ▸ hp)
        have hc := scanObjs_ok_eq cust s e objs [] counts hscan
        exact pos_foldl _ [] (by simp) p (by rw [← hc]; exact hmem)

/-- Claim C7 (witness): the scan over no objects leaves the dict empty and
the outcome is the explicit empty-result condition. -/
theorem claim_c7_witness :
    analyze "All" rangeStart rangeEnd (.ok []) = .ok .empty :=
  (claim_c7 "All" rangeStart rangeEnd []).1 rfl

/-- Claim C9 (counterexample): two qualifying objects contributing the tied
tokens `x` and `y` once each, processed in the two listing orders, yield
ranked results in different orders — `[("x",1),("y",1)]` versus
`[("y",1),("x",1)]` — so a permutation of the listing does NOT always yield an
identical RankedResult (ties follow insertion order). -/
theorem claim_c9_counterexample :
    analyze "All" rangeStart rangeEnd (.ok [tieObjX, tieObjY])
        = .ok (.results [("x", 1), ("y", 1)]) ∧
    analyze "All" rangeStart rangeEnd (.ok [tieObjY, tieObjX])
        = .ok (.results [("y", 1), ("x", 1)]) ∧
    ([tieObjX, tieObjY] : List Obj).Perm [tieObjY, tieObjX] ∧
    (([("x", 1), ("y", 1)] : List (String × Nat)) = [("y", 1), ("x", 1)]
        → False) :=
  ⟨rfl, rfl, List.Perm.swap _ _ _, fun h => by simp at h⟩

/-- Claim C9 (amended): processing any permutation of the qualifying objects
yields the same FrequencyTable as a mapping — every token has the same count,
and the two tables are permutations of one another — and a RankedResult that
is a permutation of the other run's RankedResult (the sort is a pure function
of the final table); with tied counts the order of the tied tokens may differ
between the two rankings. -/
theorem claim_c9 (cust : String) (s e : Date) (objs1 objs2 : List Obj)
    (c1 c2 : List (String × Nat)) (hp : objs1.Perm objs2)
    (h1 : scanObjs cust s e objs1 [] = .ok c1)
    (h2 : scanObjs cust s e objs2 [] = .ok c2) :
    (∀ k, countOf c1 k = countOf c2 k) ∧ c1.Perm c2 ∧
      (sortRank c1).Perm (sortRank c2) := by
  have e1 := scanObjs_ok_eq cust s e objs1 [] c1 h1
  have e2 := scanObjs_ok_eq cust s e objs2 [] c2 h2
  have hperm : (objs1.flatMap (objTokens cust s e)).Perm
      (objs2.flatMap (objTokens cust s e)) := hp.flatMap_right _
  have hcount : ∀ k, countOf c1 k = countOf c2 k := by
    intro k
    rw [e1, e2, countOf_foldl, countOf_foldl, hperm.count_eq]
  have nd1 : (c1.map Prod.fst).Nodup := by
    rw [e1]; exact nodup_keys_foldl _ [] (by simp)
  have nd2 : (c2.map Prod.fst).Nodup := by
    rw [e2]; exact nodup_keys_foldl _ [] (by simp)
  have pos1 : ∀ p ∈ c1, 1 ≤ p.2 := by
    rw [e1]; exact pos_foldl _ [] (by simp)
  have pos2 : ∀ p ∈ c2, 1 ≤ p.2 := by
    rw [e2]; exact pos_foldl _ [] (by simp)
  have hpl : c1.Perm c2 := by
    apply (List.perm_ext_iff_of_nodup nd1.of_map nd2.of_map).2
    intro p
    obtain ⟨k, n⟩ := p
    rw [mem_iff_countOf c1 k n nd1 pos1, mem_iff_countOf c2 k n nd2 pos2,
      hcount k]
  exact ⟨hcount, hpl,
    (sortRank_perm c1).trans (hpl.trans (sortRank_perm c2).symm)⟩

/-- Claim C9 (witness): for the two tied-token listings, the tables agree as
mappings, are permutations of each other, and the rankings are permutations
of each other. -/
theorem claim_c9_witness :
    (∀ k, countOf [("x", 1), ("y", 1)] k = countOf [("y", 1), ("x", 1)] k) ∧
    ([("x", 1), ("y", 1)] : List (String × Nat)).Perm [("y", 1), ("x", 1)] ∧
    (sortRank [("x", 1), ("y", 1)]).Perm (sortRank [("y", 1), ("x", 1)]) :=
  claim_c9 "All" rangeStart rangeEnd [tieObjX, tieObjY] [tieObjY, tieObjX]
    [("x", 1), ("y", 1)] [("y", 1), ("x", 1)] (List.Perm.swap _ _ _) rfl rfl

/-- Claim C8: a failure of the object-listing calls propagates out of the
Analyze block — nothing catches it — so the invocation ends in the
listing-failure error condition, never in the empty-result outcome and never
in a ranked table. -/
theorem claim_c8 (cust : String) (s e : Date) :
    analyze cust s e (.error ()) = .error .listingFailed ∧
    (∀ out : Outcome, analyze cust s e (.error ()) = .ok out → False) :=
  ⟨rfl, fun _ h => Except.noConfusion h⟩

end Dashboard
